import Mathlib

/-!
# Verification of the anime-tracker watchlist reconciliation core

This file gives a shallow embedding of the watchlist-handling core of the
anime-tracker repository and proves (or refutes) the specification claims
about it.  The embedded code comes from:

* `src/services/anilistService.ts` — the AniList status maps
  (`mapApiStatusToWatchStatus`, `mapWatchStatusToApiStatus`) and the
  `getWatchlist` merge/dedupe routine (status-priority sort, custom-list and
  unknown-status skipping, global seen-set);
* `src/App.tsx` — the Firestore-backed handlers `handleInitialSync`,
  `handleAddToWatchlist`, `handleRemoveFromWatchlist`,
  `handleUpdateWatchedEpisodes` and the background reconciliation
  `syncAniListWatchlist` (batch upsert/delete, debounce guard).

Modelling conventions:

* TypeScript `number` fields that hold integer counts are modelled as `Int`
  (watched-episode arithmetic can go negative before clamping) or `Nat`
  (identifiers).  `null`/`undefined` become `Option`.
* The Firestore per-user watchlist collection is modelled as an association
  list from document keys to documents.  The app always uses
  `item.anime.id.toString()` as the document key and `Nat.toString` is
  injective, so keys are modelled as the numeric anime id directly.
* A Firestore `WriteBatch` is a list of operations applied in order.
* Fallible remote calls are driven by an explicit oracle
  (`CallSite → Bool`); `false` means the awaited call throws.
* `Array.prototype.sort` (used by `getWatchlist` on the status lists) is
  modelled as the classic stable insertion sort that inserts each element
  into the sorted prefix scanning from the right — the behaviour of binary
  insertion sort / TimSort on short arrays in real JS engines.  For a
  consistent comparator every stable sort agrees, so the choice only
  matters on inputs where the comparator of `getWatchlist` is inconsistent
  (lists with a null/empty status, for which it answers 0 against
  everything).
-/

namespace AnimeTracker

/-! ## Data model (`src/types.ts`)

Only the fields that the embedded functions inspect are carried: `Anime`
keeps its catalog id and episode count; the remaining fields (titles, cover
images, …) are opaque payload that never influences control flow.
-/

/-- Internal watch status enum (`WatchStatus` in `src/types.ts`):
WATCHING, COMPLETED, PLAN_TO_WATCH, DROPPED, PAUSED. -/
inductive WatchStatus where
  | Watching
  | Completed
  | PlanToWatch
  | Dropped
  | Paused
deriving DecidableEq, Repr

/-- The fields of `Anime` that the embedded code reads: the numeric catalog
id and the total episode count (`episodes: number | null`). -/
structure Anime where
  id : Nat
  episodes : Option Nat
deriving DecidableEq, Repr

/-- Record `WatchlistItem` from `src/types.ts`: `mediaListId` is optional (absent
for local-only items). -/
structure WatchlistItem where
  mediaListId : Option Nat
  anime : Anime
  status : WatchStatus
  watchedEpisodes : Int
deriving DecidableEq, Repr

/-- One entry of a `MediaListCollection` list, as consumed by
`getWatchlist`: the AniList list-entry id, the media (skipped when
missing), and the progress. -/
structure MediaEntry where
  id : Nat
  media : Option Anime
  progress : Int
deriving DecidableEq, Repr

/-- One list of a remote `MediaListCollection`: custom-list flag, API
status string (null for status-less lists) and its entries. -/
structure MediaList where
  isCustomList : Bool
  status : Option String
  entries : List MediaEntry
deriving DecidableEq, Repr

/-! ## Status maps (`src/services/anilistService.ts`, lines 12–44) -/

/-- Map `mapApiStatusToWatchStatus`: maps an AniList API status string to the
internal enum, `none` when null or unmappable.  (The JS falsy guard
`if (!apiStatus) return null` and the `switch` default coincide on the
empty string, so a single string match is faithful.) -/
def mapApiStatusToWatchStatus (apiStatus : Option String) : Option WatchStatus :=
  match apiStatus with
  | none => none
  | some s =>
    if s = "CURRENT" then some .Watching
    else if s = "REPEATING" then some .Watching
    else if s = "PLANNING" then some .PlanToWatch
    else if s = "COMPLETED" then some .Completed
    else if s = "DROPPED" then some .Dropped
    else if s = "PAUSED" then some .Paused
    else none

/-- Map `mapWatchStatusToApiStatus`: maps the internal enum to the AniList API
status string. -/
def mapWatchStatusToApiStatus (status : WatchStatus) : String :=
  match status with
  | .Watching => "CURRENT"
  | .PlanToWatch => "PLANNING"
  | .Completed => "COMPLETED"
  | .Dropped => "DROPPED"
  | .Paused => "PAUSED"

/-! ## `getWatchlist` (`src/services/anilistService.ts`, lines 265–325)

The routine sorts the collection's lists with a status-priority comparator,
then walks them in order, skipping custom lists, status-less lists and
lists with unmappable statuses, and collects one item per anime id using a
global seen-set (first list in sorted order wins).
-/

/-- JS truthiness of `list.status` as used in `!a.status`: null (and the
empty string) are falsy. -/
def statusFalsy : Option String → Bool
  | none => true
  | some s => s = ""

/-- The `statusPriority` record of `getWatchlist` together with the
`|| 99` default for statuses missing from the record. -/
def statusPriority (s : String) : Nat :=
  if s = "CURRENT" then 1
  else if s = "REPEATING" then 2
  else if s = "PAUSED" then 3
  else if s = "PLANNING" then 4
  else if s = "COMPLETED" then 5
  else if s = "DROPPED" then 6
  else 99

/-- Priority of a list (its status looked up in `statusPriority`); only
meaningful for lists with a truthy status. -/
def listPriority (l : MediaList) : Nat :=
  statusPriority (l.status.getD "")

/-- The sort comparator of `getWatchlist`:
`if (!a.status || !b.status) return 0; return pr(a) - pr(b)`. -/
def listCompare (a b : MediaList) : Int :=
  if statusFalsy a.status || statusFalsy b.status then 0
  else (listPriority a : Int) - (listPriority b : Int)

/-- Insert `x` into `accR`, where `accR` is the already-sorted prefix in
reverse (rightmost element first): `x` moves left past every element that
compares strictly greater, exactly like the inner loop of insertion sort
(and like TimSort's binary insertion on ties, which also keeps `x` to the
right of elements comparing 0). -/
def insertFromRight (x : MediaList) : List MediaList → List MediaList
  | [] => [x]
  | y :: ys => if listCompare y x > 0 then y :: insertFromRight x ys else x :: y :: ys

/-- The sorted array in reverse order: fold the input through
`insertFromRight`. -/
def sortListsRev (ls : List MediaList) : List MediaList :=
  ls.foldl (fun accR x => insertFromRight x accR) []

/-- Model of `lists.sort(comparator)`: a stable insertion sort by
`listCompare`. -/
def sortLists (ls : List MediaList) : List MediaList :=
  (sortListsRev ls).reverse

/-- The inner entry loop of `getWatchlist` for one list whose mapped status
is `st`: skip entries with missing media, skip anime ids already seen,
otherwise record the item and mark the id seen.  Returns the produced
items together with the extended seen-set. -/
def processEntries (st : WatchStatus) :
    List MediaEntry → List Nat → List WatchlistItem × List Nat
  | [], seen => ([], seen)
  | e :: es, seen =>
    match e.media with
    | none => processEntries st es seen
    | some media =>
      if media.id ∈ seen then processEntries st es seen
      else
        let r := processEntries st es (media.id :: seen)
        (⟨some e.id, media, st, e.progress⟩ :: r.1, r.2)

/-- The outer list loop of `getWatchlist`: skip custom lists, status-less
lists, and lists whose status does not map; process the rest in order,
threading the global seen-set. -/
def processLists : List MediaList → List Nat → List WatchlistItem × List Nat
  | [], seen => ([], seen)
  | l :: rest, seen =>
    if l.isCustomList || statusFalsy l.status then processLists rest seen
    else
      match mapApiStatusToWatchStatus l.status with
      | none => processLists rest seen
      | some st =>
        let r := processEntries st l.entries seen
        let r2 := processLists rest r.2
        (r.1 ++ r2.1, r2.2)

/-- Function `getWatchlist`, as a function of the remote collection's lists
(`data.MediaListCollection?.lists || []`). -/
def getWatchlist (lists : List MediaList) : List WatchlistItem :=
  (processLists (sortLists lists) []).1

/-! ## Firestore store model

The per-user watchlist collection `users/{uid}/watchlist` as an association
list from document keys to documents.  The app keys every document by
`item.anime.id.toString()`; since `Nat.toString` is injective the key space
is represented by the numeric id itself.
-/

/-- The local watchlist collection: document key (numeric anime id) to
stored item. -/
abbrev Store := List (Nat × WatchlistItem)

/-- Firestore document write (`batch.set` / plain `setDoc` without merge):
overwrite the binding for `k` in place, or create it at the end. -/
def storeSet : Store → Nat → WatchlistItem → Store
  | [], k, v => [(k, v)]
  | p :: rest, k, v => if p.1 = k then (k, v) :: rest else p :: storeSet rest k v

/-- Firestore document delete (`batch.delete` / `deleteDoc`): remove the
binding for `k`. -/
def storeDelete (s : Store) (k : Nat) : Store :=
  s.filter (fun p => p.1 != k)

/-- Read a document by key. -/
def storeGet : Store → Nat → Option WatchlistItem
  | [], _ => none
  | p :: rest, k => if p.1 = k then some p.2 else storeGet rest k

/-- Every document is keyed by the anime id of its content — the invariant
the app maintains, since every write uses `item.anime.id.toString()` as the
document id. -/
def storeWellKeyed (s : Store) : Prop :=
  ∀ p ∈ s, p.1 = p.2.anime.id

instance (s : Store) : Decidable (storeWellKeyed s) :=
  decidable_of_iff (∀ p ∈ s, p.1 = p.2.anime.id) Iff.rfl

/-! ## Background reconciliation (`src/App.tsx`, `syncAniListWatchlist`,
lines 364–406)

The body fetches the remote list, reads the local collection, then commits
one write batch: a `set` for every remote item (keyed by its anime id) and
a `delete` for every local item whose anime id is not in the remote map.
-/

/-- One operation of a Firestore `WriteBatch`. -/
inductive BatchOp where
  | set (key : Nat) (item : WatchlistItem)
  | del (key : Nat)
deriving DecidableEq, Repr

/-- Apply a single batch operation to the store. -/
def applyBatchOp (s : Store) : BatchOp → Store
  | .set k v => storeSet s k v
  | .del k => storeDelete s k

/-- Commit `batch.commit()`: apply the queued operations in order. -/
def commitBatch (s : Store) (ops : List BatchOp) : Store :=
  ops.foldl applyBatchOp s

/-- The ids of a fetched item list, and the `anilistMap.has` test (a JS
`Map` keyed by `item.anime.id`). -/
def itemIds (items : List WatchlistItem) : List Nat :=
  items.map (fun it => it.anime.id)

/-- The write batch queued by `syncAniListWatchlist`: first a `set` per
remote (AniList) item, then a `delete` per local (Firestore) item whose
anime id is absent from the remote map. -/
def syncBatchOps (anilistItems firestoreItems : List WatchlistItem) : List BatchOp :=
  (anilistItems.map (fun it => BatchOp.set it.anime.id it))
    ++ ((firestoreItems.filter
          (fun it => !(itemIds anilistItems).contains it.anime.id)).map
        (fun it => BatchOp.del it.anime.id))

/-- The store effect of one successful `syncAniListWatchlist` run: read the
local items (`getDocs` happens before the commit), queue the batch, commit.
-/
def syncAniListMerge (anilistItems : List WatchlistItem) (store : Store) : Store :=
  commitBatch store (syncBatchOps anilistItems (store.map (fun p => p.2)))

/-- The remote item a key reconciles to: the first remote item carrying
that anime id (the JS `Map` also holds one entry per id; with duplicate-free
remote ids the two coincide). -/
def remoteFind (anilistItems : List WatchlistItem) (k : Nat) : Option WatchlistItem :=
  anilistItems.find? (fun it => it.anime.id == k)

/-! ## Initial sync (`src/App.tsx`, `handleInitialSync`, lines 197–227)

The whole body sits in a single try/catch that rethrows: the upload loop
over local-only items has no per-item handler, so the first throwing
`saveWatchlistItem` aborts the loop and skips the Firestore batch.
-/

/-- Result of a `handleInitialSync` run: the anime ids successfully
uploaded to AniList, the local store afterwards, and whether the caught
error was rethrown. -/
structure InitialSyncResult where
  uploadedIds : List Nat
  store : Store
  threw : Bool
deriving DecidableEq, Repr

/-- The upload loop `for (const item of itemsToUpload) await
saveWatchlistItem(...)`: stops at the first item whose save throws
(`saveFails` is the oracle for the remote call). -/
def uploadLoop (saveFails : Nat → Bool) : List WatchlistItem → List Nat × Bool
  | [] => ([], false)
  | it :: rest =>
    if saveFails it.anime.id then ([], true)
    else
      let r := uploadLoop saveFails rest
      (it.anime.id :: r.1, r.2)

/-- Body of `handleInitialSync` after a successful remote fetch: filter the
local-only items, upload them one by one, and — only if no upload threw —
batch-write every remote item into the local store.  On a throw the catch
block sets the sync error and rethrows, so the batch never runs. -/
def handleInitialSync (saveFails : Nat → Bool)
    (firestoreWatchlist anilistWatchlist : List WatchlistItem)
    (store : Store) : InitialSyncResult :=
  let itemsToUpload := firestoreWatchlist.filter
    (fun it => !(itemIds anilistWatchlist).contains it.anime.id)
  let r := uploadLoop saveFails itemsToUpload
  if r.2 then ⟨r.1, store, true⟩
  else
    ⟨r.1,
     anilistWatchlist.foldl (fun s it => storeSet s it.anime.id it) store,
     false⟩

/-! ## Per-item handlers (`src/App.tsx`)

Each handler is a try/catch around a fixed sequence of awaited calls; each
call site is named, and an oracle `CallSite → Bool` says whether the
awaited call succeeds.  A handler result records the call sites that were
actually attempted (in order), the user-visible sync-error string set by
the catch block, and the local store afterwards.
-/

/-- The awaited remote/store call sites of the four watchlist operations. -/
inductive CallSite where
  | addSetDoc1
  | addSave
  | addSetDoc2
  | removeDeleteDoc
  | removeDeleteRemote
  | updSetDoc1
  | updSave
  | updSetDoc2
  | syncGetWatchlist
  | syncGetDocs
  | syncCommit
deriving DecidableEq, Repr

/-- Outcome of one handler invocation. -/
structure HandlerResult where
  trace : List CallSite
  syncError : Option String
  store : Store
deriving DecidableEq, Repr

/-- Write `setDoc(docRef, fields, merge)` with only the `mediaListId`,
`status` and `watchedEpisodes` fields: field-merge into the existing
document. -/
def storeMergeSave (s : Store) (k : Nat) (mid : Nat) (st : WatchStatus) (pr : Int) : Store :=
  s.map (fun p =>
    if p.1 = k then (p.1, { p.2 with mediaListId := some mid, status := st, watchedEpisodes := pr })
    else p)

/-- Write `setDoc(docRef, progressFields, merge)`: field-merge
the progress fields into the existing document. -/
def storeMergeProgress (s : Store) (k : Nat) (st : WatchStatus) (n : Int) : Store :=
  s.map (fun p =>
    if p.1 = k then (p.1, { p.2 with status := st, watchedEpisodes := n })
    else p)

/-- Handler `handleAddToWatchlist` (lines 270–301): compute the new item (episode
heuristics from the JS conditionals, truthiness included), `setDoc` it with
merge, and — when an AniList token is linked — push it remotely and merge
the server echo back.  Any throw is caught and becomes a sync-error
string. -/
def handleAddToWatchlist (ora : CallSite → Bool) (hasUser : Bool)
    (anilistToken : Option String) (saveResult : Nat × WatchStatus × Int)
    (watchlist : List WatchlistItem) (store : Store)
    (anime : Anime) (status : WatchStatus) : HandlerResult :=
  if !hasUser then ⟨[], none, store⟩
  else
    let existingItem := watchlist.find? (fun it => it.anime.id == anime.id)
    let we0 : Int := match existingItem with
      | some it => it.watchedEpisodes
      | none => 0
    let watchedEpisodes : Int :=
      if status == .Completed && anime.episodes.any (fun n => n != 0) then
        (anime.episodes.getD 0 : Nat)
      else if existingItem.all (fun it => it.status != .Watching) && status == .Watching
          && we0 == 0 && !(anime.episodes == some 0) then 1
      else if status == .PlanToWatch then 0
      else we0
    let newItem : WatchlistItem :=
      ⟨existingItem.bind (fun it => it.mediaListId), anime, status, watchedEpisodes⟩
    if !ora .addSetDoc1 then
      ⟨[.addSetDoc1], some "Failed to sync item.", store⟩
    else
      let store1 := storeSet store anime.id newItem
      match anilistToken with
      | none => ⟨[.addSetDoc1], none, store1⟩
      | some _ =>
        if !ora .addSave then
          ⟨[.addSetDoc1, .addSave], some "Failed to sync item.", store1⟩
        else
          if !ora .addSetDoc2 then
            ⟨[.addSetDoc1, .addSave, .addSetDoc2], some "Failed to sync item.", store1⟩
          else
            ⟨[.addSetDoc1, .addSave, .addSetDoc2], none,
             storeMergeSave store1 anime.id saveResult.1 saveResult.2.1 saveResult.2.2⟩

/-- Handler `handleRemoveFromWatchlist` (lines 304–329): delete the local document,
then — when a token is linked and the item has a remote list-entry id —
delete the remote entry; throws are caught into a sync-error string. -/
def handleRemoveFromWatchlist (ora : CallSite → Bool) (hasUser : Bool)
    (anilistToken : Option String) (watchlist : List WatchlistItem)
    (store : Store) (animeId : Nat) : HandlerResult :=
  if !hasUser then ⟨[], none, store⟩
  else
    match watchlist.find? (fun it => it.anime.id == animeId) with
    | none => ⟨[], none, store⟩
    | some itemToRemove =>
      if !ora .removeDeleteDoc then
        ⟨[.removeDeleteDoc], some "Failed to sync deletion.", store⟩
      else
        let store1 := storeDelete store animeId
        if anilistToken.isSome ∧ itemToRemove.mediaListId.isSome then
          if !ora .removeDeleteRemote then
            ⟨[.removeDeleteDoc, .removeDeleteRemote], some "Failed to sync deletion.", store1⟩
          else
            ⟨[.removeDeleteDoc, .removeDeleteRemote], none, store1⟩
        else ⟨[.removeDeleteDoc], none, store1⟩

/-- The clamped episode count and derived status computed by
`handleUpdateWatchedEpisodes` for an item with a known total:
`Math.max(0, Math.min(total, watched + change))` and the status
conditionals of lines 337–341. -/
def updatePayload (item : WatchlistItem) (total : Nat) (change : Int) : Int × WatchStatus :=
  let newWatchedCount : Int := max 0 (min (total : Int) (item.watchedEpisodes + change))
  let newStatus : WatchStatus :=
    if newWatchedCount = (total : Int) then .Completed
    else if newWatchedCount > 0 ∧ item.status ≠ .Paused ∧ item.status ≠ .Dropped then .Watching
    else if item.status = .Completed ∧ newWatchedCount < (total : Int) then .Watching
    else item.status
  (newWatchedCount, newStatus)

/-- Handler `handleUpdateWatchedEpisodes` (lines 330–362): bail out (no write at
all) when the item is absent or its episode count is null/undefined;
otherwise merge the clamped payload into the document and, with a linked
token, push it remotely and merge the server echo back. -/
def handleUpdateWatchedEpisodes (ora : CallSite → Bool) (hasUser : Bool)
    (anilistToken : Option String) (saveResult : WatchStatus × Int)
    (watchlist : List WatchlistItem) (store : Store)
    (animeId : Nat) (change : Int) : HandlerResult :=
  if !hasUser then ⟨[], none, store⟩
  else
    match watchlist.find? (fun it => it.anime.id == animeId) with
    | none => ⟨[], none, store⟩
    | some item =>
      match item.anime.episodes with
      | none => ⟨[], none, store⟩
      | some total =>
        let p := updatePayload item total change
        if !ora .updSetDoc1 then
          ⟨[.updSetDoc1], some "Failed to update episodes.", store⟩
        else
          let store1 := storeMergeProgress store animeId p.2 p.1
          match anilistToken with
          | none => ⟨[.updSetDoc1], none, store1⟩
          | some _ =>
            if !ora .updSave then
              ⟨[.updSetDoc1, .updSave], some "Failed to update episodes.", store1⟩
            else
              if !ora .updSetDoc2 then
                ⟨[.updSetDoc1, .updSave, .updSetDoc2], some "Failed to update episodes.", store1⟩
              else
                ⟨[.updSetDoc1, .updSave, .updSetDoc2], none,
                 storeMergeProgress store1 animeId saveResult.1 saveResult.2⟩

/-- One full `syncAniListWatchlist` invocation (lines 364–406) as a
function of the observed guard inputs: the closure's `isBackgroundSyncing`
snapshot, `Date.now()` and the `lastSyncTimestamp` ref, the profile/token
presence, and the remote collection.  Returns the handler outcome plus
whether `lastSyncTimestamp` was advanced (success only). -/
def syncAniListWatchlistRun (ora : CallSite → Bool)
    (observedFlag : Bool) (now lastSync : Int) (hasProfileAndToken : Bool)
    (remoteLists : List MediaList) (store : Store) : HandlerResult × Bool :=
  if observedFlag || (now - lastSync < 60000) then (⟨[], none, store⟩, false)
  else if !hasProfileAndToken then (⟨[], none, store⟩, false)
  else if !ora .syncGetWatchlist then
    (⟨[.syncGetWatchlist], some "Auto-sync failed.", store⟩, false)
  else if !ora .syncGetDocs then
    (⟨[.syncGetWatchlist, .syncGetDocs], some "Auto-sync failed.", store⟩, false)
  else if !ora .syncCommit then
    (⟨[.syncGetWatchlist, .syncGetDocs, .syncCommit], some "Auto-sync failed.", store⟩, false)
  else
    (⟨[.syncGetWatchlist, .syncGetDocs, .syncCommit], none,
      syncAniListMerge (getWatchlist remoteLists) store⟩, true)

/-! ## In-flight flag trace model (for the duplicate-sync claim)

`isBackgroundSyncing` is React `useState` state: the guard of
`syncAniListWatchlist` reads the value captured at the last render, while
`setIsBackgroundSyncing(true)` only changes the value the *next* render
will capture.  `lastSyncTimestamp` is a `useRef`, visible immediately.
The trace model has three events: an invocation of the callback (which, if
the guard passes, starts a fetch and puts one more sync in flight), a
React re-render (propagating the pending flag value into the closure), and
the completion of an in-flight sync (its `finally` clears the flag; its
success path advances the timestamp ref).
-/

/-- State of the sync-guard machinery between events. -/
structure SyncFlagState where
  renderedFlag : Bool
  pendingFlag : Bool
  running : Nat
  lastSync : Int
  fetches : Nat
deriving DecidableEq, Repr

/-- Events of the guard trace model. -/
inductive SyncEvent where
  | invoke (now : Int)
  | render
  | finish (now : Int) (success : Bool)
deriving DecidableEq, Repr

/-- One step: the guard of `syncAniListWatchlist` against the rendered
snapshot and the timestamp ref; `render` publishes the pending flag;
`finish` runs the success/`finally` epilogue of a sync in flight. -/
def syncStep (s : SyncFlagState) : SyncEvent → SyncFlagState
  | .invoke now =>
    if s.renderedFlag || (now - s.lastSync < 60000) then s
    else { s with pendingFlag := true, running := s.running + 1, fetches := s.fetches + 1 }
  | .render => { s with renderedFlag := s.pendingFlag }
  | .finish now success =>
    { s with pendingFlag := false, running := s.running - 1,
             lastSync := if success then now else s.lastSync }

/-- Run a trace of events from a state. -/
def syncRun (s : SyncFlagState) (evs : List SyncEvent) : SyncFlagState :=
  evs.foldl syncStep s

/-- The state at mount: flag clear, nothing running, timestamp ref 0. -/
def initialSyncFlagState : SyncFlagState := ⟨false, false, 0, 0, 0⟩

/-- C9: round trip on the internal side: for every internal `WatchStatus`,
mapping to the API string and back is the identity; and the API-to-internal
direction is not injective, because both CURRENT and REPEATING map to
WATCHING. -/
theorem status_map_round_trip :
    (∀ s : WatchStatus,
      mapApiStatusToWatchStatus (some (mapWatchStatusToApiStatus s)) = some s)
    ∧ mapApiStatusToWatchStatus (some "CURRENT") = some WatchStatus.Watching
    ∧ mapApiStatusToWatchStatus (some "REPEATING") = some WatchStatus.Watching := by
  refine ⟨fun s => ?_, rfl, rfl⟩
  cases s <;> rfl

/-! ## Lemmas about the `getWatchlist` loops -/

theorem processEntries_seen_subset (st : WatchStatus) :
    ∀ (es : List MediaEntry) (seen : List Nat) (i : Nat),
      i ∈ seen → i ∈ (processEntries st es seen).2 := by
  intro es
  induction es with
  | nil => intro seen i hi; simpa [processEntries] using hi
  | cons e es ih =>
    intro seen i hi
    match he : e.media with
    | none => simpa [processEntries, he] using ih seen i hi
    | some media =>
      by_cases hmem : media.id ∈ seen
      · simpa [processEntries, he, hmem] using ih seen i hi
      · simpa [processEntries, he, hmem] using ih (media.id :: seen) i (by simp [hi])

theorem processEntries_media_seen (st : WatchStatus) :
    ∀ (es : List MediaEntry) (seen : List Nat) (e : MediaEntry) (m : Anime),
      e ∈ es → e.media = some m → m.id ∈ (processEntries st es seen).2 := by
  intro es
  induction es with
  | nil => intro seen e m he; simp at he
  | cons e0 es ih =>
    intro seen e m he hm
    match he0 : e0.media with
    | none =>
      rcases List.mem_cons.mp he with rfl | hrest
      · rw [he0] at hm; exact absurd hm (by simp)
      · simpa [processEntries, he0] using ih seen e m hrest hm
    | some media =>
      by_cases hmem : media.id ∈ seen
      · rcases List.mem_cons.mp he with rfl | hrest
        · rw [he0] at hm
          injection hm with hm'
          subst hm'
          simpa [processEntries, he0, hmem] using
            processEntries_seen_subset st es seen media.id hmem
        · simpa [processEntries, he0, hmem] using ih seen e m hrest hm
      · rcases List.mem_cons.mp he with rfl | hrest
        · rw [he0] at hm
          injection hm with hm'
          subst hm'
          simpa [processEntries, he0, hmem] using
            processEntries_seen_subset st es (media.id :: seen) media.id (by simp)
        · simpa [processEntries, he0, hmem] using ih (media.id :: seen) e m hrest hm

theorem processEntries_items (st : WatchStatus) :
    ∀ (es : List MediaEntry) (seen : List Nat) (it : WatchlistItem),
      it ∈ (processEntries st es seen).1 →
        it.anime.id ∉ seen ∧ it.anime.id ∈ (processEntries st es seen).2 ∧
        it.status = st ∧ ∃ e ∈ es, e.media = some it.anime := by
  intro es
  induction es with
  | nil => intro seen it hmem; simp [processEntries] at hmem
  | cons e es ih =>
    intro seen it hmem
    match he : e.media with
    | none =>
      rw [processEntries, he] at hmem
      obtain ⟨h1, h2, h3, e', he', hm'⟩ := ih seen it hmem
      exact ⟨h1, by simpa [processEntries, he] using h2, h3, e', by simp [he'], hm'⟩
    | some media =>
      by_cases hs : media.id ∈ seen
      · simp only [processEntries, he] at hmem
        rw [if_pos hs] at hmem
        obtain ⟨h1, h2, h3, e', he', hm'⟩ := ih seen it hmem
        exact ⟨h1, by simpa [processEntries, he, hs] using h2, h3, e', by simp [he'], hm'⟩
      · simp only [processEntries, he] at hmem
        rw [if_neg hs] at hmem
        rcases List.mem_cons.mp hmem with rfl | hrest
        · refine ⟨hs, ?_, rfl, e, by simp, he⟩
          simpa [processEntries, he, hs] using
            processEntries_seen_subset st es (media.id :: seen) media.id (by simp)
        · obtain ⟨h1, h2, h3, e', he', hm'⟩ := ih (media.id :: seen) it hrest
          have hne : it.anime.id ∉ seen := fun hc => h1 (by simp [hc])
          exact ⟨hne, by simpa [processEntries, he, hs] using h2, h3, e', by simp [he'], hm'⟩

theorem processEntries_nodup (st : WatchStatus) :
    ∀ (es : List MediaEntry) (seen : List Nat),
      ((processEntries st es seen).1.map (fun it => it.anime.id)).Nodup := by
  intro es
  induction es with
  | nil => intro seen; simp [processEntries]
  | cons e es ih =>
    intro seen
    match he : e.media with
    | none => simpa [processEntries, he] using ih seen
    | some media =>
      by_cases hs : media.id ∈ seen
      · simpa [processEntries, he, hs] using ih seen
      · simp only [processEntries, he]
        rw [if_neg hs]
        refine List.nodup_cons.mpr ⟨?_, ih (media.id :: seen)⟩
        intro hc
        rw [List.mem_map] at hc
        obtain ⟨it, hit, hid⟩ := hc
        have := (processEntries_items st es (media.id :: seen) it hit).1
        exact this (by simp [hid])

theorem processLists_seen_subset :
    ∀ (ss : List MediaList) (seen : List Nat) (i : Nat),
      i ∈ seen → i ∈ (processLists ss seen).2 := by
  intro ss
  induction ss with
  | nil => intro seen i hi; simpa [processLists] using hi
  | cons l rest ih =>
    intro seen i hi
    by_cases hskip : (l.isCustomList || statusFalsy l.status) = true
    · simpa [processLists, hskip] using ih seen i hi
    · match hmap : mapApiStatusToWatchStatus l.status with
      | none => simpa [processLists, hskip, hmap] using ih seen i hi
      | some st =>
        simpa [processLists, hskip, hmap] using
          ih (processEntries st l.entries seen).2 i
            (processEntries_seen_subset st l.entries seen i hi)

theorem processLists_items :
    ∀ (ss : List MediaList) (seen : List Nat) (it : WatchlistItem),
      it ∈ (processLists ss seen).1 →
        it.anime.id ∉ seen ∧ it.anime.id ∈ (processLists ss seen).2 ∧
        ∃ l ∈ ss, l.isCustomList = false ∧ statusFalsy l.status = false ∧
          mapApiStatusToWatchStatus l.status = some it.status ∧
          ∃ e ∈ l.entries, e.media = some it.anime := by
  intro ss
  induction ss with
  | nil => intro seen it hmem; simp [processLists] at hmem
  | cons l rest ih =>
    intro seen it hmem
    by_cases hskip : (l.isCustomList || statusFalsy l.status) = true
    · rw [processLists, if_pos hskip] at hmem
      obtain ⟨h1, h2, l', hl', hgood⟩ := ih seen it hmem
      exact ⟨h1, by simpa [processLists, hskip] using h2, l', by simp [hl'], hgood⟩
    · match hmap : mapApiStatusToWatchStatus l.status with
      | none =>
        rw [processLists, if_neg hskip, hmap] at hmem
        obtain ⟨h1, h2, l', hl', hgood⟩ := ih seen it hmem
        exact ⟨h1, by simpa [processLists, hskip, hmap] using h2, l', by simp [hl'], hgood⟩
      | some st =>
        rw [processLists, if_neg hskip, hmap] at hmem
        simp only [List.mem_append] at hmem
        have hbool : l.isCustomList = false ∧ statusFalsy l.status = false := by
          simpa using hskip
        rcases hmem with hhere | hrest
        · obtain ⟨h1, h2, h3, e, he, hm⟩ := processEntries_items st l.entries seen it hhere
          refine ⟨h1, ?_, l, by simp, hbool.1, hbool.2, by rw [hmap, h3], e, he, hm⟩
          simpa [processLists, hskip, hmap] using
            processLists_seen_subset rest (processEntries st l.entries seen).2 _ h2
        · obtain ⟨h1, h2, l', hl', hgood⟩ := ih (processEntries st l.entries seen).2 it hrest
          refine ⟨fun hc => h1 (processEntries_seen_subset st l.entries seen _ hc),
            by simpa [processLists, hskip, hmap] using h2, l', by simp [hl'], hgood⟩

theorem processLists_nodup :
    ∀ (ss : List MediaList) (seen : List Nat),
      ((processLists ss seen).1.map (fun it => it.anime.id)).Nodup := by
  intro ss
  induction ss with
  | nil => intro seen; simp [processLists]
  | cons l rest ih =>
    intro seen
    by_cases hskip : (l.isCustomList || statusFalsy l.status) = true
    · simpa [processLists, hskip] using ih seen
    · match hmap : mapApiStatusToWatchStatus l.status with
      | none => simpa [processLists, hskip, hmap] using ih seen
      | some st =>
        rw [processLists, if_neg hskip, hmap]
        simp only [List.map_append, List.nodup_append]
        refine ⟨processEntries_nodup st l.entries seen, ih _, ?_⟩
        intro i hi hi'
        rw [List.mem_map] at hi hi'
        obtain ⟨it, hit, rfl⟩ := hi
        obtain ⟨it', hit', hid'⟩ := hi'
        have h2 := (processEntries_items st l.entries seen it hit).2.1
        have h1 := (processLists_items rest _ it' hit').1
        exact h1 (hid' ▸ h2)

/-! ## The sort is a permutation -/

theorem insertFromRight_perm (x : MediaList) :
    ∀ acc : List MediaList, (insertFromRight x acc).Perm (x :: acc) := by
  intro acc
  induction acc with
  | nil => simp [insertFromRight]
  | cons y ys ih =>
    rw [insertFromRight]
    by_cases h : listCompare y x > 0
    · rw [if_pos h]
      exact (ih.cons y).trans (List.Perm.swap x y ys)
    · rw [if_neg h]

theorem foldl_insertFromRight_perm :
    ∀ (ls accR : List MediaList),
      (ls.foldl (fun accR x => insertFromRight x accR) accR).Perm (ls ++ accR) := by
  intro ls
  induction ls with
  | nil => intro accR; simp
  | cons l rest ih =>
    intro accR
    rw [List.foldl_cons]
    refine (ih (insertFromRight l accR)).trans ?_
    refine (List.Perm.append_left rest (insertFromRight_perm l accR)).trans ?_
    exact List.perm_middle

theorem sortLists_perm (ls : List MediaList) : (sortLists ls).Perm ls := by
  unfold sortLists sortListsRev
  exact (List.reverse_perm _).trans (by simpa using foldl_insertFromRight_perm ls [])

theorem mem_sortLists {l : MediaList} {ls : List MediaList} :
    l ∈ sortLists ls ↔ l ∈ ls :=
  (sortLists_perm ls).mem_iff

/-! ## Claim theorems about `getWatchlist` alone -/

/-- C7: every entry produced by `getWatchlist` has a status obtained by
successfully mapping the status of some non-custom, non-status-less list of
the collection — so its status lies in the finite internal enum image, and
no entry survives from a custom list, a status-less list, or a list whose
API status does not map. -/
theorem getWatchlist_status_provenance (lists : List MediaList)
    (item : WatchlistItem) (hmem : item ∈ getWatchlist lists) :
    ∃ l ∈ lists, l.isCustomList = false ∧ statusFalsy l.status = false ∧
      mapApiStatusToWatchStatus l.status = some item.status ∧
      ∃ e ∈ l.entries, e.media = some item.anime := by
  obtain ⟨-, -, l, hl, hgood⟩ := processLists_items (sortLists lists) [] item hmem
  exact ⟨l, mem_sortLists.mp hl, hgood⟩

/-- Closed witness for the provenance theorem at a concrete collection. -/
theorem getWatchlist_status_provenance_witness :
    (⟨some 11, ⟨1, some 12⟩, .Watching, 5⟩ : WatchlistItem) ∈
        getWatchlist [⟨false, some "CURRENT", [⟨11, some ⟨1, some 12⟩, 5⟩]⟩] ∧
      ∃ l ∈ [(⟨false, some "CURRENT", [⟨11, some ⟨1, some 12⟩, 5⟩]⟩ : MediaList)],
        l.isCustomList = false ∧ statusFalsy l.status = false ∧
        mapApiStatusToWatchStatus l.status =
          some (⟨some 11, ⟨1, some 12⟩, .Watching, 5⟩ : WatchlistItem).status ∧
        ∃ e ∈ l.entries, e.media = some (⟨some 11, ⟨1, some 12⟩, .Watching, 5⟩ : WatchlistItem).anime :=
  ⟨by decide, getWatchlist_status_provenance _ _ (by decide)⟩

/-! ## Store lemmas -/

theorem storeGet_storeSet (s : Store) (k : Nat) (v : WatchlistItem) (k' : Nat) :
    storeGet (storeSet s k v) k' = if k' = k then some v else storeGet s k' := by
  induction s with
  | nil =>
    simp only [storeSet, storeGet]
    by_cases h : k = k'
    · rw [if_pos h, if_pos h.symm]
    · rw [if_neg h, if_neg (fun hc => h hc.symm)]
  | cons p rest ih =>
    rw [storeSet]
    by_cases hp : p.1 = k
    · rw [if_pos hp]
      simp only [storeGet]
      by_cases h : k' = k
      · rw [if_pos h.symm, if_pos h]
      · have h1 : ¬ (k = k') := fun hc => h hc.symm
        have h2 : ¬ (p.1 = k') := by rw [hp]; exact h1
        rw [if_neg h1, if_neg h, if_neg h2]
    · rw [if_neg hp]
      simp only [storeGet]
      by_cases h : p.1 = k'
      · have hne : ¬ k' = k := fun hc => hp (h.trans hc)
        rw [if_pos h, if_neg hne, if_pos h]
      · rw [if_neg h, if_neg h, ih]

theorem storeGet_storeDelete (s : Store) (k : Nat) (k' : Nat) :
    storeGet (storeDelete s k) k' = if k' = k then none else storeGet s k' := by
  induction s with
  | nil =>
    simp only [storeDelete, List.filter_nil, storeGet]
    by_cases h : k' = k
    · rw [if_pos h]
    · rw [if_neg h]
  | cons p rest ih =>
    have hrest : List.filter (fun p => p.1 != k) rest = storeDelete rest k := rfl
    by_cases hp : p.1 = k
    · have hb : (p.1 != k) = false := by simp [hp]
      rw [storeDelete, List.filter_cons, hb]
      simp only [Bool.false_eq_true, if_false, hrest, ih]
      by_cases h : k' = k
      · rw [if_pos h, if_pos h]
      · have h2 : ¬ p.1 = k' := fun hc => h (by rw [← hc, hp])
        rw [if_neg h, if_neg h]
        simp only [storeGet]
        rw [if_neg h2]
    · have hb : (p.1 != k) = true := by simp [hp]
      rw [storeDelete, List.filter_cons, hb]
      simp only [if_true, storeGet, hrest, ih]
      by_cases h : p.1 = k'
      · have hne : ¬ k' = k := fun hc => hp (h.trans hc)
        rw [if_pos h, if_neg hne, if_pos h]
      · rw [if_neg h, if_neg h]

theorem storeGet_eq_none_iff (s : Store) (k : Nat) :
    storeGet s k = none ↔ k ∉ s.map (fun p => p.1) := by
  induction s with
  | nil => simp [storeGet]
  | cons p rest ih =>
    simp only [storeGet, List.map_cons, List.mem_cons]
    by_cases h : p.1 = k
    · simp [h]
    · simp only [if_neg h, ih]
      constructor
      · intro hnone hc
        rcases hc with hc | hc
        · exact h hc.symm
        · exact hnone hc
      · intro hni
        exact fun hc => hni (Or.inr hc)

theorem storeSet_keys (s : Store) (k : Nat) (v : WatchlistItem) :
    (storeSet s k v).map (fun p => p.1)
      = if k ∈ s.map (fun p => p.1) then s.map (fun p => p.1)
        else s.map (fun p => p.1) ++ [k] := by
  induction s with
  | nil => simp [storeSet]
  | cons p rest ih =>
    rw [storeSet]
    by_cases hp : p.1 = k
    · rw [if_pos hp]
      have : k ∈ (p :: rest).map (fun p => p.1) := by simp [hp]
      rw [if_pos this]
      simp [hp]
    · rw [if_neg hp]
      simp only [List.map_cons, List.mem_cons, ih]
      by_cases hk : k ∈ rest.map (fun p => p.1)
      · rw [if_pos hk, if_pos (Or.inr hk)]
      · rw [if_neg hk, if_neg ?_]
        · simp
        · rintro (hc | hc)
          · exact hp hc.symm
          · exact hk hc

theorem storeSet_keys_nodup (s : Store) (k : Nat) (v : WatchlistItem)
    (h : (s.map (fun p => p.1)).Nodup) : ((storeSet s k v).map (fun p => p.1)).Nodup := by
  rw [storeSet_keys]
  by_cases hk : k ∈ s.map (fun p => p.1)
  · simpa [hk] using h
  · rw [if_neg hk]
    refine List.Nodup.append h (by simp) ?_
    intro a ha hb
    rw [List.mem_singleton] at hb
    subst hb
    exact hk ha

theorem storeDelete_keys_nodup (s : Store) (k : Nat)
    (h : (s.map (fun p => p.1)).Nodup) : ((storeDelete s k).map (fun p => p.1)).Nodup := by
  unfold storeDelete
  exact List.Nodup.sublist ((List.filter_sublist s).map (fun p => p.1)) h

theorem storeSet_wellKeyed (v : WatchlistItem) :
    ∀ s : Store, storeWellKeyed s → storeWellKeyed (storeSet s v.anime.id v) := by
  intro s
  induction s with
  | nil =>
    intro _ p hp
    rw [storeSet] at hp
    rw [List.mem_singleton] at hp
    subst hp
    rfl
  | cons q rest ih =>
    intro h p hp
    rw [storeSet] at hp
    by_cases hq : q.1 = v.anime.id
    · rw [if_pos hq] at hp
      rcases List.mem_cons.mp hp with rfl | hrest
      · rfl
      · exact h p (List.mem_cons_of_mem q hrest)
    · rw [if_neg hq] at hp
      rcases List.mem_cons.mp hp with rfl | hrest
      · exact h _ (List.mem_cons_self _ _)
      · exact ih (fun r hr => h r (List.mem_cons_of_mem q hr)) p hrest

theorem storeDelete_wellKeyed (s : Store) (k : Nat)
    (h : storeWellKeyed s) : storeWellKeyed (storeDelete s k) := by
  intro p hp
  exact h p (List.mem_of_mem_filter hp)

/-! ## Batch lemmas and the reconciliation claims -/

theorem commitBatch_append (s : Store) (ops1 ops2 : List BatchOp) :
    commitBatch s (ops1 ++ ops2) = commitBatch (commitBatch s ops1) ops2 := by
  unfold commitBatch
  exact List.foldl_append applyBatchOp s ops1 ops2

theorem commitBatch_keys_nodup :
    ∀ (ops : List BatchOp) (s : Store), (s.map (fun p => p.1)).Nodup →
      ((commitBatch s ops).map (fun p => p.1)).Nodup := by
  intro ops
  induction ops with
  | nil => intro s h; simpa [commitBatch] using h
  | cons op rest ih =>
    intro s h
    have hstep : ((applyBatchOp s op).map (fun p => p.1)).Nodup := by
      cases op with
      | set k v => exact storeSet_keys_nodup s k v h
      | del k => exact storeDelete_keys_nodup s k h
    simpa [commitBatch, List.foldl_cons] using ih (applyBatchOp s op) hstep

theorem commitBatch_wellKeyed :
    ∀ (ops : List BatchOp) (s : Store),
      (∀ k v, BatchOp.set k v ∈ ops → k = v.anime.id) →
      storeWellKeyed s → storeWellKeyed (commitBatch s ops) := by
  intro ops
  induction ops with
  | nil => intro s _ h; simpa [commitBatch] using h
  | cons op rest ih =>
    intro s hops h
    have hstep : storeWellKeyed (applyBatchOp s op) := by
      cases op with
      | set k v =>
        have hk : k = v.anime.id := hops k v (by simp)
        subst hk
        exact storeSet_wellKeyed v s h
      | del k => exact storeDelete_wellKeyed s k h
    simpa [commitBatch, List.foldl_cons] using
      ih (applyBatchOp s op) (fun k v hm => hops k v (by simp [hm])) hstep

theorem syncBatchOps_sets_keyed (a f : List WatchlistItem) (k : Nat) (v : WatchlistItem)
    (h : BatchOp.set k v ∈ syncBatchOps a f) : k = v.anime.id := by
  unfold syncBatchOps at h
  rcases List.mem_append.mp h with h1 | h2
  · obtain ⟨it, -, heq⟩ := List.mem_map.mp h1
    injection heq with h3 h4
    rw [← h3, h4]
  · obtain ⟨it, -, heq⟩ := List.mem_map.mp h2
    exact absurd heq (by simp)

theorem contains_eq_false_iff (l : List Nat) (k : Nat) :
    l.contains k = false ↔ k ∉ l := by
  simp

/-- C3: the batch queued by `syncAniListWatchlist` contains a delete
operation exactly for the keys present in the local (Firestore) item list
but absent from the remote (AniList) item list, and a set operation exactly
for the keys present remotely. -/
theorem sync_batch_delete_set_spec (anilistItems firestoreItems : List WatchlistItem) (k : Nat) :
    (BatchOp.del k ∈ syncBatchOps anilistItems firestoreItems ↔
      k ∈ itemIds firestoreItems ∧ k ∉ itemIds anilistItems)
    ∧ ((∃ v, BatchOp.set k v ∈ syncBatchOps anilistItems firestoreItems) ↔
      k ∈ itemIds anilistItems) := by
  constructor
  · unfold syncBatchOps
    rw [List.mem_append]
    constructor
    · rintro (h1 | h2)
      · obtain ⟨it, -, heq⟩ := List.mem_map.mp h1
        exact absurd heq (by simp)
      · obtain ⟨it, hit, heq⟩ := List.mem_map.mp h2
        rw [List.mem_filter] at hit
        injection heq with h3
        subst h3
        refine ⟨List.mem_map.mpr ⟨it, hit.1, rfl⟩, ?_⟩
        intro hc
        have hcon := hit.2
        simp only [Bool.not_eq_true'] at hcon
        rw [contains_eq_false_iff] at hcon
        exact hcon hc
    · rintro ⟨h1, h2⟩
      obtain ⟨it, hit, rfl⟩ := List.mem_map.mp h1
      refine Or.inr (List.mem_map.mpr ⟨it, List.mem_filter.mpr ⟨hit, ?_⟩, rfl⟩)
      simp only [Bool.not_eq_true']
      rw [contains_eq_false_iff]
      exact h2
  · constructor
    · rintro ⟨v, hv⟩
      unfold syncBatchOps at hv
      rcases List.mem_append.mp hv with h1 | h2
      · obtain ⟨it, hit, heq⟩ := List.mem_map.mp h1
        injection heq with h3 h4
        subst h3
        exact List.mem_map.mpr ⟨it, hit, rfl⟩
      · obtain ⟨it, -, heq⟩ := List.mem_map.mp h2
        exact absurd heq (by simp)
    · intro hk
      obtain ⟨it, hit, rfl⟩ := List.mem_map.mp hk
      exact ⟨it, List.mem_append.mpr (Or.inl (List.mem_map.mpr ⟨it, hit, rfl⟩))⟩

/-- C2: `getWatchlist` returns each anime id at most once, and a completed
reconciliation run keeps the local store duplicate-free with every document
keyed by the anime id of its content. -/
theorem watchlist_and_store_one_entry_per_id (lists : List MediaList) (s : Store)
    (hnd : (s.map (fun p => p.1)).Nodup) (hwk : storeWellKeyed s) :
    ((getWatchlist lists).map (fun it => it.anime.id)).Nodup
    ∧ ((syncAniListMerge (getWatchlist lists) s).map (fun p => p.1)).Nodup
    ∧ storeWellKeyed (syncAniListMerge (getWatchlist lists) s) := by
  refine ⟨processLists_nodup (sortLists lists) [], ?_, ?_⟩
  · exact commitBatch_keys_nodup _ s hnd
  · exact commitBatch_wellKeyed _ s
      (fun k v hm => syncBatchOps_sets_keyed _ _ k v hm) hwk

/-- Closed witness for the one-entry-per-id theorem: a collection where the
same anime sits on two status lists and a store holding a stale item. -/
theorem watchlist_and_store_one_entry_per_id_witness :
    (([(7, (⟨some 3, ⟨7, some 24⟩, .Paused, 3⟩ : WatchlistItem))].map (fun p => p.1)).Nodup
        ∧ storeWellKeyed [(7, ⟨some 3, ⟨7, some 24⟩, .Paused, 3⟩)])
    ∧ (((getWatchlist
          [⟨false, some "COMPLETED", [⟨10, some ⟨1, some 12⟩, 12⟩]⟩,
           ⟨false, some "CURRENT", [⟨11, some ⟨1, some 12⟩, 5⟩]⟩]).map
            (fun it => it.anime.id)).Nodup
        ∧ ((syncAniListMerge
              (getWatchlist
                [⟨false, some "COMPLETED", [⟨10, some ⟨1, some 12⟩, 12⟩]⟩,
                 ⟨false, some "CURRENT", [⟨11, some ⟨1, some 12⟩, 5⟩]⟩])
              [(7, ⟨some 3, ⟨7, some 24⟩, .Paused, 3⟩)]).map (fun p => p.1)).Nodup
        ∧ storeWellKeyed
            (syncAniListMerge
              (getWatchlist
                [⟨false, some "COMPLETED", [⟨10, some ⟨1, some 12⟩, 12⟩]⟩,
                 ⟨false, some "CURRENT", [⟨11, some ⟨1, some 12⟩, 5⟩]⟩])
              [(7, ⟨some 3, ⟨7, some 24⟩, .Paused, 3⟩)])) :=
  ⟨⟨by decide, by decide⟩,
   watchlist_and_store_one_entry_per_id _ _ (by decide) (by decide)⟩

/-! ## Idempotence of the reconciliation merge -/

theorem remoteFind_eq_none (a : List WatchlistItem) (k : Nat)
    (h : k ∉ itemIds a) : remoteFind a k = none := by
  induction a with
  | nil => rfl
  | cons it rest ih =>
    have h1 : ¬ it.anime.id = k := by
      intro hc
      exact h (by simp [itemIds, hc])
    have h2 : k ∉ itemIds rest := fun hc => h (by simp [itemIds] at hc ⊢; exact Or.inr hc)
    simp only [remoteFind, List.find?]
    rw [show (it.anime.id == k) = false by simpa using h1]
    exact ih h2

theorem remoteFind_self (a : List WatchlistItem) (hnd : (itemIds a).Nodup) :
    ∀ it ∈ a, remoteFind a it.anime.id = some it := by
  induction a with
  | nil => intro it hit; simp at hit
  | cons x rest ih =>
    intro it hit
    rcases List.mem_cons.mp hit with rfl | hrest
    · simp [remoteFind, List.find?]
    · have hx : ¬ x.anime.id = it.anime.id := by
        intro hc
        have : x.anime.id ∈ itemIds rest := by
          rw [hc]
          exact List.mem_map.mpr ⟨it, hrest, rfl⟩
        exact (List.nodup_cons.mp (by simpa [itemIds] using hnd)).1 this
      simp only [remoteFind, List.find?]
      rw [show (x.anime.id == it.anime.id) = false by simpa using hx]
      exact ih (List.nodup_cons.mp (by simpa [itemIds] using hnd)).2 it hrest

/-- The store after the `set` half of the batch: remote items win on their
own ids, everything else is untouched. -/
theorem storeGet_setsFold (a : List WatchlistItem) :
    ∀ (s : Store) (k : Nat), (itemIds a).Nodup →
      storeGet (a.foldl (fun s it => storeSet s it.anime.id it) s) k
        = if k ∈ itemIds a then remoteFind a k else storeGet s k := by
  induction a with
  | nil => intro s k _; simp [itemIds, remoteFind]
  | cons it rest ih =>
    intro s k hnd
    rw [List.foldl_cons]
    have hnd' : (itemIds rest).Nodup := (List.nodup_cons.mp (by simpa [itemIds] using hnd)).2
    rw [ih (storeSet s it.anime.id it) k hnd']
    by_cases hk : k = it.anime.id
    · subst hk
      have hns : it.anime.id ∉ itemIds rest :=
        (List.nodup_cons.mp (by simpa [itemIds] using hnd)).1
      rw [if_neg hns, if_pos (by simp [itemIds])]
      rw [storeGet_storeSet, if_pos rfl]
      simp [remoteFind, List.find?]
    · have hmem : k ∈ itemIds (it :: rest) ↔ k ∈ itemIds rest := by
        simp only [itemIds, List.map_cons, List.mem_cons]
        exact ⟨fun h => h.resolve_left (fun hc => hk hc), Or.inr⟩
      have hfind : remoteFind (it :: rest) k = remoteFind rest k := by
        simp only [remoteFind, List.find?]
        rw [show (it.anime.id == k) = false by simpa using fun hc => hk hc.symm]
      by_cases hr : k ∈ itemIds rest
      · rw [if_pos hr, if_pos (hmem.mpr hr), hfind]
      · rw [if_neg hr, if_neg (fun hc => hr (hmem.mp hc)), storeGet_storeSet, if_neg hk]

/-- The store after a sequence of deletes: deleted keys read as `none`,
everything else is untouched. -/
theorem storeGet_delsFold (ds : List Nat) :
    ∀ (s : Store) (k : Nat),
      storeGet (commitBatch s (ds.map BatchOp.del)) k
        = if k ∈ ds then none else storeGet s k := by
  induction ds with
  | nil => intro s k; simp [commitBatch]
  | cons d rest ih =>
    intro s k
    rw [List.map_cons]
    show storeGet (commitBatch (storeDelete s d) (rest.map BatchOp.del)) k = _
    rw [ih (storeDelete s d) k, storeGet_storeDelete]
    by_cases h1 : k ∈ rest
    · rw [if_pos h1, if_pos (by simp [h1])]
    · by_cases h2 : k = d
      · rw [if_neg h1, if_pos h2, if_pos (by simp [h2])]
      · rw [if_neg h1, if_neg h2, if_neg (by simp [h1, h2])]

/-- Reading the reconciled store: under the store-keying invariant and
duplicate-free remote ids, a key reads exactly the remote item with that
anime id (and `none` when there is none). -/
theorem syncAniListMerge_get (a : List WatchlistItem) (s : Store)
    (hwk : storeWellKeyed s) (hnd : (itemIds a).Nodup) (k : Nat) :
    storeGet (syncAniListMerge a s) k = remoteFind a k := by
  unfold syncAniListMerge syncBatchOps
  rw [commitBatch_append]
  have hsets : commitBatch s (a.map (fun it => BatchOp.set it.anime.id it))
      = a.foldl (fun s it => storeSet s it.anime.id it) s := by
    unfold commitBatch
    rw [List.foldl_map]
    rfl
  have hdels : ((s.map (fun p => p.2)).filter
        (fun it => !(itemIds a).contains it.anime.id)).map (fun it => BatchOp.del it.anime.id)
      = (((s.map (fun p => p.2)).filter
          (fun it => !(itemIds a).contains it.anime.id)).map (fun it => it.anime.id)).map
        BatchOp.del := by
    rw [List.map_map]
    rfl
  rw [hsets, hdels, storeGet_delsFold, storeGet_setsFold a _ k hnd]
  set delKeys := ((s.map (fun p => p.2)).filter
      (fun it => !(itemIds a).contains it.anime.id)).map (fun it => it.anime.id) with hdk
  have hdel_not_remote : ∀ d ∈ delKeys, d ∉ itemIds a := by
    intro d hd
    rw [hdk] at hd
    obtain ⟨it, hit, rfl⟩ := List.mem_map.mp hd
    rw [List.mem_filter] at hit
    have := hit.2
    simp only [Bool.not_eq_true'] at this
    exact (contains_eq_false_iff _ _).mp this
  by_cases hk : k ∈ itemIds a
  · have : k ∉ delKeys := fun hc => hdel_not_remote k hc hk
    rw [if_neg this, if_pos hk]
  · rw [if_neg hk, remoteFind_eq_none a k hk]
    by_cases hd : k ∈ delKeys
    · rw [if_pos hd]
    · rw [if_neg hd]
      rw [storeGet_eq_none_iff]
      intro hkey
      obtain ⟨p, hp, rfl⟩ := List.mem_map.mp hkey
      apply hd
      rw [hdk]
      refine List.mem_map.mpr ⟨p.2, List.mem_filter.mpr ⟨List.mem_map.mpr ⟨p, hp, rfl⟩, ?_⟩, ?_⟩
      · have hkeq : p.1 = p.2.anime.id := hwk p hp
        simp only [Bool.not_eq_true']
        rw [contains_eq_false_iff]
        rw [← hkeq]
        exact hk
      · exact (hwk p hp).symm

theorem storeSet_self (s : Store) (k : Nat) (v : WatchlistItem)
    (h : storeGet s k = some v) : storeSet s k v = s := by
  induction s with
  | nil => simp [storeGet] at h
  | cons p rest ih =>
    rw [storeSet]
    by_cases hp : p.1 = k
    · rw [if_pos hp]
      rw [storeGet, if_pos hp] at h
      injection h with h
      rw [← hp, ← h]
    · rw [if_neg hp]
      rw [storeGet, if_neg hp] at h
      rw [ih h]

theorem commitBatch_fixed (s : Store) :
    ∀ ops : List BatchOp, (∀ op ∈ ops, applyBatchOp s op = s) → commitBatch s ops = s := by
  intro ops
  induction ops with
  | nil => intro _; rfl
  | cons op rest ih =>
    intro h
    have h1 : applyBatchOp s op = s := h op (by simp)
    show commitBatch (applyBatchOp s op) rest = s
    rw [h1]
    exact ih (fun op' hop' => h op' (by simp [hop']))

/-- C4: the reconciliation merge is idempotent — after one run the store
reads exactly as the remote list keyed by anime id, and a second run with
the same remote list is the identity on the store. -/
theorem sync_merge_idempotent (a : List WatchlistItem) (s : Store)
    (hwk : storeWellKeyed s) (hnd : (itemIds a).Nodup) :
    (∀ k, storeGet (syncAniListMerge a s) k = remoteFind a k)
    ∧ syncAniListMerge a (syncAniListMerge a s) = syncAniListMerge a s := by
  have hwk1 : storeWellKeyed (syncAniListMerge a s) :=
    commitBatch_wellKeyed _ s (fun k v hm => syncBatchOps_sets_keyed _ _ k v hm) hwk
  have hget : ∀ k, storeGet (syncAniListMerge a s) k = remoteFind a k :=
    fun k => syncAniListMerge_get a s hwk hnd k
  refine ⟨hget, ?_⟩
  set s1 := syncAniListMerge a s with hs1
  have hvals : ∀ v ∈ s1.map (fun p => p.2), v.anime.id ∈ itemIds a := by
    intro v hv
    obtain ⟨p, hp, rfl⟩ := List.mem_map.mp hv
    have hkeq : p.1 = p.2.anime.id := hwk1 p hp
    by_contra hc
    have hnone : storeGet s1 p.2.anime.id = none := by
      rw [hget, remoteFind_eq_none a _ hc]
    rw [storeGet_eq_none_iff] at hnone
    exact hnone (List.mem_map.mpr ⟨p, hp, hkeq⟩)
  have hfilter : (s1.map (fun p => p.2)).filter
      (fun it => !(itemIds a).contains it.anime.id) = [] := by
    rw [List.filter_eq_nil_iff]
    intro v hv
    have := hvals v hv
    simp [this]
  show commitBatch s1 (syncBatchOps a (s1.map (fun p => p.2))) = s1
  unfold syncBatchOps
  rw [hfilter]
  simp only [List.map_nil, List.append_nil]
  apply commitBatch_fixed
  intro op hop
  obtain ⟨it, hit, rfl⟩ := List.mem_map.mp hop
  show storeSet s1 it.anime.id it = s1
  apply storeSet_self
  rw [hget]
  exact remoteFind_self a hnd it hit

/-- Closed witness for the idempotence theorem: one remote item, one stale
local item. -/
theorem sync_merge_idempotent_witness :
    (storeWellKeyed [(7, (⟨none, ⟨7, some 24⟩, .Dropped, 3⟩ : WatchlistItem))]
        ∧ (itemIds [(⟨some 5, ⟨2, some 10⟩, .Watching, 4⟩ : WatchlistItem)]).Nodup)
    ∧ ((∀ k, storeGet (syncAniListMerge [⟨some 5, ⟨2, some 10⟩, .Watching, 4⟩]
            [(7, ⟨none, ⟨7, some 24⟩, .Dropped, 3⟩)]) k
          = remoteFind [⟨some 5, ⟨2, some 10⟩, .Watching, 4⟩] k)
        ∧ syncAniListMerge [⟨some 5, ⟨2, some 10⟩, .Watching, 4⟩]
            (syncAniListMerge [⟨some 5, ⟨2, some 10⟩, .Watching, 4⟩]
              [(7, ⟨none, ⟨7, some 24⟩, .Dropped, 3⟩)])
          = syncAniListMerge [⟨some 5, ⟨2, some 10⟩, .Watching, 4⟩]
              [(7, ⟨none, ⟨7, some 24⟩, .Dropped, 3⟩)]) :=
  ⟨⟨by decide, by decide⟩,
   sync_merge_idempotent _ _ (by decide) (by decide)⟩

/-! ## Initial-sync failure behaviour -/

theorem uploadLoop_any_fail (f : Nat → Bool) :
    ∀ items : List WatchlistItem, items.any (fun it => f it.anime.id) = true →
      uploadLoop f items
        = ((items.takeWhile (fun it => !f it.anime.id)).map (fun it => it.anime.id), true) := by
  intro items
  induction items with
  | nil => intro h; simp at h
  | cons it rest ih =>
    intro h
    by_cases hf : f it.anime.id = true
    · rw [uploadLoop, if_pos hf, List.takeWhile_cons]
      rw [show (!f it.anime.id) = false by simp [hf]]
      simp
    · have hf' : f it.anime.id = false := by
        cases hx : f it.anime.id
        · rfl
        · exact absurd hx hf
      have hrest : rest.any (fun it => f it.anime.id) = true := by
        rcases List.any_eq_true.mp h with ⟨x, hx, hfx⟩
        rcases List.mem_cons.mp hx with rfl | hxr
        · exact absurd hfx hf
        · exact List.any_eq_true.mpr ⟨x, hxr, hfx⟩
      rw [uploadLoop, if_neg (by simp [hf']), ih hrest, List.takeWhile_cons]
      rw [show (!f it.anime.id) = true by simp [hf']]
      simp

/-- C5 (amended): when uploading some local-only item to AniList throws
during the initial-sync merge, the whole merge aborts — only the items
before the first failing one were uploaded, no remote item is written to
the local store, and the error is rethrown. -/
theorem initial_sync_aborts_on_failure (saveFails : Nat → Bool)
    (firestoreWatchlist anilistWatchlist : List WatchlistItem) (store : Store)
    (hfail : (firestoreWatchlist.filter
        (fun it => !(itemIds anilistWatchlist).contains it.anime.id)).any
      (fun it => saveFails it.anime.id) = true) :
    handleInitialSync saveFails firestoreWatchlist anilistWatchlist store
      = ⟨((firestoreWatchlist.filter
            (fun it => !(itemIds anilistWatchlist).contains it.anime.id)).takeWhile
            (fun it => !saveFails it.anime.id)).map (fun it => it.anime.id),
         store, true⟩ := by
  have h2 := uploadLoop_any_fail saveFails _ hfail
  simp only [handleInitialSync, h2, if_true]

/-- Closed witness for the abort theorem: two local-only items, the first
upload throws. -/
theorem initial_sync_aborts_on_failure_witness :
    (([(⟨none, ⟨1, none⟩, .Watching, 0⟩ : WatchlistItem), ⟨none, ⟨2, none⟩, .Watching, 0⟩].filter
        (fun it => !(itemIds [(⟨some 9, ⟨3, some 5⟩, .Completed, 5⟩ : WatchlistItem)]).contains
          it.anime.id)).any (fun it => (it.anime.id == 1 : Bool)) = true)
    ∧ handleInitialSync (fun n => n == 1)
        [⟨none, ⟨1, none⟩, .Watching, 0⟩, ⟨none, ⟨2, none⟩, .Watching, 0⟩]
        [⟨some 9, ⟨3, some 5⟩, .Completed, 5⟩] []
      = ⟨(([(⟨none, ⟨1, none⟩, .Watching, 0⟩ : WatchlistItem), ⟨none, ⟨2, none⟩, .Watching, 0⟩].filter
            (fun it => !(itemIds [(⟨some 9, ⟨3, some 5⟩, .Completed, 5⟩ : WatchlistItem)]).contains
              it.anime.id)).takeWhile (fun it => !(it.anime.id == 1 : Bool))).map
          (fun it => it.anime.id), [], true⟩ :=
  ⟨by decide,
   initial_sync_aborts_on_failure (fun n => n == 1) _ _ [] (by decide)⟩

/-- C5 counterexample: at the same concrete input the claim's promised
behaviour — the second local-only item still uploaded and the remote item
still written locally — does not happen: nothing is uploaded, the store
stays empty, and the error is rethrown. -/
theorem initial_sync_others_do_not_proceed :
    ¬ (2 ∈ (handleInitialSync (fun n => n == 1)
          [⟨none, ⟨1, none⟩, .Watching, 0⟩, ⟨none, ⟨2, none⟩, .Watching, 0⟩]
          [⟨some 9, ⟨3, some 5⟩, .Completed, 5⟩] []).uploadedIds)
    ∧ storeGet (handleInitialSync (fun n => n == 1)
          [⟨none, ⟨1, none⟩, .Watching, 0⟩, ⟨none, ⟨2, none⟩, .Watching, 0⟩]
          [⟨some 9, ⟨3, some 5⟩, .Completed, 5⟩] []).store 3 = none
    ∧ (handleInitialSync (fun n => n == 1)
          [⟨none, ⟨1, none⟩, .Watching, 0⟩, ⟨none, ⟨2, none⟩, .Watching, 0⟩]
          [⟨some 9, ⟨3, some 5⟩, .Completed, 5⟩] []).threw = true := by
  decide

/-! ## The duplicate-sync guard -/

/-- C6 (amended): when an invocation of `syncAniListWatchlist` observes the
in-flight flag set in its render snapshot, or fewer than 60000 ms have
elapsed since the last successful sync, it returns immediately: no fetch,
no write, no state change at all. -/
theorem sync_guard_short_circuits (s : SyncFlagState) (now : Int)
    (h : s.renderedFlag = true ∨ now - s.lastSync < 60000) :
    syncStep s (.invoke now) = s := by
  rcases h with h | h
  · simp [syncStep, h]
  · simp [syncStep, h]

/-- Closed witness for the guard theorem: flag set in the snapshot. -/
theorem sync_guard_short_circuits_witness :
    ((⟨true, true, 1, 0, 1⟩ : SyncFlagState).renderedFlag = true
        ∨ (1000000 : Int) - (⟨true, true, 1, 0, 1⟩ : SyncFlagState).lastSync < 60000)
    ∧ syncStep ⟨true, true, 1, 0, 1⟩ (.invoke 1000000) = ⟨true, true, 1, 0, 1⟩ :=
  ⟨Or.inl rfl, sync_guard_short_circuits _ _ (Or.inl rfl)⟩

/-- C6 counterexample: the flag is React render-snapshot state, so a second
invocation arriving before the next render still sees the flag clear and
starts a second fetch — after two immediate invocations two syncs are in
flight, refuting "two background syncs are never in flight at once" (and
with the first sync in flight, the second invocation did not return
without fetching). -/
theorem sync_overlap_counterexample :
    (syncStep initialSyncFlagState (.invoke 100000)).running = 1
    ∧ (syncStep (syncStep initialSyncFlagState (.invoke 100000)) (.invoke 100000)).fetches = 2
    ∧ (syncRun initialSyncFlagState [.invoke 100000, .invoke 100000]).running = 2
    ∧ ¬ (∀ evs : List SyncEvent,
          (syncRun initialSyncFlagState evs).running ≤ 1) := by
  refine ⟨by decide, by decide, by decide, fun h => ?_⟩
  exact absurd (h [.invoke 100000, .invoke 100000]) (by decide)

/-! ## Uniform error handling -/

/-- C8: for each watchlist operation — add, remove, update episodes,
background sync — and every outcome of the underlying remote/store calls:
no call site is ever attempted twice in one invocation (no retry), and the
user-visible sync-error string is set exactly when some attempted call
threw (the throw is caught at the call site, never propagated). -/
theorem uniform_error_handling :
    (∀ (ora : CallSite → Bool) (hasUser : Bool) (token : Option String)
        (saveResult : Nat × WatchStatus × Int) (wl : List WatchlistItem) (store : Store)
        (anime : Anime) (status : WatchStatus),
        (handleAddToWatchlist ora hasUser token saveResult wl store anime status).trace.Nodup
        ∧ (handleAddToWatchlist ora hasUser token saveResult wl store anime status).syncError.isSome
            = (handleAddToWatchlist ora hasUser token saveResult wl store anime status).trace.any
                (fun c => !(ora c)))
    ∧ (∀ (ora : CallSite → Bool) (hasUser : Bool) (token : Option String)
        (wl : List WatchlistItem) (store : Store) (animeId : Nat),
        (handleRemoveFromWatchlist ora hasUser token wl store animeId).trace.Nodup
        ∧ (handleRemoveFromWatchlist ora hasUser token wl store animeId).syncError.isSome
            = (handleRemoveFromWatchlist ora hasUser token wl store animeId).trace.any
                (fun c => !(ora c)))
    ∧ (∀ (ora : CallSite → Bool) (hasUser : Bool) (token : Option String)
        (saveResult : WatchStatus × Int) (wl : List WatchlistItem) (store : Store)
        (animeId : Nat) (change : Int),
        (handleUpdateWatchedEpisodes ora hasUser token saveResult wl store animeId change).trace.Nodup
        ∧ (handleUpdateWatchedEpisodes ora hasUser token saveResult wl store animeId change).syncError.isSome
            = (handleUpdateWatchedEpisodes ora hasUser token saveResult wl store animeId change).trace.any
                (fun c => !(ora c)))
    ∧ (∀ (ora : CallSite → Bool) (observedFlag : Bool) (now lastSync : Int)
        (hasProfileAndToken : Bool) (remoteLists : List MediaList) (store : Store),
        (syncAniListWatchlistRun ora observedFlag now lastSync hasProfileAndToken
            remoteLists store).1.trace.Nodup
        ∧ (syncAniListWatchlistRun ora observedFlag now lastSync hasProfileAndToken
              remoteLists store).1.syncError.isSome
            = (syncAniListWatchlistRun ora observedFlag now lastSync hasProfileAndToken
                  remoteLists store).1.trace.any (fun c => !(ora c))) := by
  refine ⟨?_, ?_, ?_, ?_⟩
  · intro ora hasUser token saveResult wl store anime status
    cases hasUser with
    | false => simp [handleAddToWatchlist]
    | true =>
      cases token with
      | none =>
        cases h1 : ora CallSite.addSetDoc1 <;>
          simp [handleAddToWatchlist, h1]
      | some t =>
        cases h1 : ora CallSite.addSetDoc1 <;>
          cases h2 : ora CallSite.addSave <;>
            cases h3 : ora CallSite.addSetDoc2 <;>
              simp [handleAddToWatchlist, h1, h2, h3]
  · intro ora hasUser token wl store animeId
    cases hasUser with
    | false => simp [handleRemoveFromWatchlist]
    | true =>
      cases hfind : wl.find? (fun it => it.anime.id == animeId) with
      | none => simp [handleRemoveFromWatchlist, hfind]
      | some item =>
        cases htok : token.isSome <;>
          cases hmid : item.mediaListId.isSome <;>
            cases h1 : ora CallSite.removeDeleteDoc <;>
              cases h2 : ora CallSite.removeDeleteRemote <;>
                simp [handleRemoveFromWatchlist, hfind, htok, hmid, h1, h2]
  · intro ora hasUser token saveResult wl store animeId change
    cases hasUser with
    | false => simp [handleUpdateWatchedEpisodes]
    | true =>
      cases hfind : wl.find? (fun it => it.anime.id == animeId) with
      | none => simp [handleUpdateWatchedEpisodes, hfind]
      | some item =>
        cases hep : item.anime.episodes with
        | none => simp [handleUpdateWatchedEpisodes, hfind, hep]
        | some total =>
          cases token with
          | none =>
            cases h1 : ora CallSite.updSetDoc1 <;>
              simp [handleUpdateWatchedEpisodes, hfind, hep, h1]
          | some t =>
            cases h1 : ora CallSite.updSetDoc1 <;>
              cases h2 : ora CallSite.updSave <;>
                cases h3 : ora CallSite.updSetDoc2 <;>
                  simp [handleUpdateWatchedEpisodes, hfind, hep, h1, h2, h3]
  · intro ora observedFlag now lastSync hasProfileAndToken remoteLists store
    cases hguard : (observedFlag || decide (now - lastSync < 60000)) <;>
      cases hprof : hasProfileAndToken <;>
        cases h1 : ora CallSite.syncGetWatchlist <;>
          cases h2 : ora CallSite.syncGetDocs <;>
            cases h3 : ora CallSite.syncCommit <;>
              simp [syncAniListWatchlistRun, hguard, hprof, h1, h2, h3]

/-! ## Episode-count clamping -/

/-- C10: for an item found in the watchlist, when its anime has a known
total episode count the update handler computes the new watched count as
the old count plus the change clamped into `[0, total]` — it is the exact
sum whenever that sum already lies in the interval — the derived status is
COMPLETED exactly when the new count equals the total, and that payload is
what the handler writes; with a null/undefined episode count the handler
performs no write at all. -/
theorem update_watched_episodes_clamps (wl : List WatchlistItem) (animeId : Nat)
    (change : Int) (item : WatchlistItem)
    (hfind : wl.find? (fun it => it.anime.id == animeId) = some item) :
    (∀ total : Nat, item.anime.episodes = some total →
      ((updatePayload item total change).1
          = max 0 (min (total : Int) (item.watchedEpisodes + change))
        ∧ 0 ≤ (updatePayload item total change).1
        ∧ (updatePayload item total change).1 ≤ (total : Int)
        ∧ (0 ≤ item.watchedEpisodes + change → item.watchedEpisodes + change ≤ (total : Int) →
            (updatePayload item total change).1 = item.watchedEpisodes + change)
        ∧ ((updatePayload item total change).2 = WatchStatus.Completed ↔
            (updatePayload item total change).1 = (total : Int)))
      ∧ ∀ store : Store,
          handleUpdateWatchedEpisodes (fun _ => true) true none (.Watching, 0)
              wl store animeId change
            = ⟨[.updSetDoc1], none,
               storeMergeProgress store animeId (updatePayload item total change).2
                 (updatePayload item total change).1⟩)
    ∧ (item.anime.episodes = none →
        ∀ (ora : CallSite → Bool) (token : Option String) (saveResult : WatchStatus × Int)
          (store : Store),
          handleUpdateWatchedEpisodes ora true token saveResult wl store animeId change
            = ⟨[], none, store⟩) := by
  constructor
  · intro total hep
    constructor
    · have hfst : (updatePayload item total change).1
          = max 0 (min (total : Int) (item.watchedEpisodes + change)) := rfl
      have hsnd : (updatePayload item total change).2
          = (if (updatePayload item total change).1 = (total : Int) then WatchStatus.Completed
             else if (updatePayload item total change).1 > 0
                 ∧ item.status ≠ .Paused ∧ item.status ≠ .Dropped then WatchStatus.Watching
             else if item.status = .Completed
                 ∧ (updatePayload item total change).1 < (total : Int) then WatchStatus.Watching
             else item.status) := rfl
      have hle : (updatePayload item total change).1 ≤ (total : Int) := by
        rw [hfst]
        rcases le_or_lt (min (total : Int) (item.watchedEpisodes + change)) 0 with h | h
        · rw [max_eq_left h]
          exact Int.ofNat_nonneg total
        · rw [max_eq_right h.le]
          exact min_le_left _ _
      have hge : 0 ≤ (updatePayload item total change).1 := by
        rw [hfst]
        exact le_max_left _ _
      refine ⟨hfst, hge, hle, ?_, ?_⟩
      · intro h1 h2
        rw [hfst, min_eq_right h2, max_eq_right h1]
      · rw [hsnd]
        by_cases hnt : (updatePayload item total change).1 = (total : Int)
        · simp [hnt]
        · rw [if_neg hnt]
          have hlt : (updatePayload item total change).1 < (total : Int) :=
            lt_of_le_of_ne hle hnt
          by_cases h2 : (updatePayload item total change).1 > 0
              ∧ item.status ≠ .Paused ∧ item.status ≠ .Dropped
          · rw [if_pos h2]
            simp [hnt]
          · rw [if_neg h2]
            by_cases h3 : item.status = .Completed
                ∧ (updatePayload item total change).1 < (total : Int)
            · rw [if_pos h3]
              simp [hnt]
            · rw [if_neg h3]
              constructor
              · intro hst
                exact absurd ⟨hst, hlt⟩ h3
              · intro hc
                exact absurd hc hnt
    · intro store
      simp [handleUpdateWatchedEpisodes, hfind, hep]
  · intro hep ora token saveResult store
    simp [handleUpdateWatchedEpisodes, hfind, hep]

/-- Closed witness for the clamping theorem at a concrete watchlist. -/
theorem update_watched_episodes_clamps_witness :
    ([(⟨some 4, ⟨5, some 10⟩, .Watching, 3⟩ : WatchlistItem)].find?
        (fun it => it.anime.id == 5) = some ⟨some 4, ⟨5, some 10⟩, .Watching, 3⟩)
    ∧ ((∀ total : Nat,
          (⟨some 4, ⟨5, some 10⟩, .Watching, 3⟩ : WatchlistItem).anime.episodes = some total →
          ((updatePayload ⟨some 4, ⟨5, some 10⟩, .Watching, 3⟩ total 2).1
              = max 0 (min (total : Int)
                  ((⟨some 4, ⟨5, some 10⟩, .Watching, 3⟩ : WatchlistItem).watchedEpisodes + 2))
            ∧ 0 ≤ (updatePayload ⟨some 4, ⟨5, some 10⟩, .Watching, 3⟩ total 2).1
            ∧ (updatePayload ⟨some 4, ⟨5, some 10⟩, .Watching, 3⟩ total 2).1 ≤ (total : Int)
            ∧ (0 ≤ (⟨some 4, ⟨5, some 10⟩, .Watching, 3⟩ : WatchlistItem).watchedEpisodes + 2 →
                (⟨some 4, ⟨5, some 10⟩, .Watching, 3⟩ : WatchlistItem).watchedEpisodes + 2 ≤ (total : Int) →
                (updatePayload ⟨some 4, ⟨5, some 10⟩, .Watching, 3⟩ total 2).1
                  = (⟨some 4, ⟨5, some 10⟩, .Watching, 3⟩ : WatchlistItem).watchedEpisodes + 2)
            ∧ ((updatePayload ⟨some 4, ⟨5, some 10⟩, .Watching, 3⟩ total 2).2 = WatchStatus.Completed ↔
                (updatePayload ⟨some 4, ⟨5, some 10⟩, .Watching, 3⟩ total 2).1 = (total : Int)))
          ∧ ∀ store : Store,
              handleUpdateWatchedEpisodes (fun _ => true) true none (.Watching, 0)
                  [⟨some 4, ⟨5, some 10⟩, .Watching, 3⟩] store 5 2
                = ⟨[.updSetDoc1], none,
                   storeMergeProgress store 5
                     (updatePayload ⟨some 4, ⟨5, some 10⟩, .Watching, 3⟩ total 2).2
                     (updatePayload ⟨some 4, ⟨5, some 10⟩, .Watching, 3⟩ total 2).1⟩)
        ∧ ((⟨some 4, ⟨5, some 10⟩, .Watching, 3⟩ : WatchlistItem).anime.episodes = none →
            ∀ (ora : CallSite → Bool) (token : Option String) (saveResult : WatchStatus × Int)
              (store : Store),
              handleUpdateWatchedEpisodes ora true token saveResult
                  [⟨some 4, ⟨5, some 10⟩, .Watching, 3⟩] store 5 2
                = ⟨[], none, store⟩)) :=
  ⟨by decide, update_watched_episodes_clamps _ 5 2 _ (by decide)⟩

/-! ## Status-priority tie-breaking -/

/-- A list of the collection from which `getWatchlist` could take an entry
for anime `i`: non-custom, status present, status mappable, and some entry
carries media with id `i`. -/
def isCandidateFor (l : MediaList) (i : Nat) : Bool :=
  !l.isCustomList && !statusFalsy l.status && (mapApiStatusToWatchStatus l.status).isSome
    && l.entries.any (fun e =>
        match e.media with
        | some m => m.id == i
        | none => false)

theorem isCandidateFor_iff (l : MediaList) (i : Nat) :
    isCandidateFor l i = true ↔
      l.isCustomList = false ∧ statusFalsy l.status = false ∧
      (mapApiStatusToWatchStatus l.status).isSome = true ∧
      ∃ e ∈ l.entries, ∃ m, e.media = some m ∧ m.id = i := by
  unfold isCandidateFor
  simp only [Bool.and_eq_true, Bool.not_eq_true', List.any_eq_true]
  constructor
  · rintro ⟨⟨⟨h1, h2⟩, h3⟩, e, he, hm⟩
    refine ⟨h1, h2, h3, e, he, ?_⟩
    match hme : e.media with
    | some m =>
      rw [hme] at hm
      exact ⟨m, rfl, by simpa using hm⟩
    | none => rw [hme] at hm; simp at hm
  · rintro ⟨h1, h2, h3, e, he, m, hme, hmi⟩
    exact ⟨⟨⟨h1, h2⟩, h3⟩, e, he, by rw [hme]; simpa using hmi⟩

theorem listCompare_of_truthy (a b : MediaList)
    (ha : statusFalsy a.status = false) (hb : statusFalsy b.status = false) :
    listCompare a b = (listPriority a : Int) - (listPriority b : Int) := by
  unfold listCompare
  rw [if_neg (by simp [ha, hb])]

theorem mem_insertFromRight {z x : MediaList} {acc : List MediaList} :
    z ∈ insertFromRight x acc ↔ z = x ∨ z ∈ acc := by
  rw [(insertFromRight_perm x acc).mem_iff, List.mem_cons]

theorem insertFromRight_revSorted (x : MediaList) (hx : statusFalsy x.status = false) :
    ∀ acc : List MediaList, (∀ y ∈ acc, statusFalsy y.status = false) →
      acc.Pairwise (fun a b => listPriority b ≤ listPriority a) →
      (insertFromRight x acc).Pairwise (fun a b => listPriority b ≤ listPriority a) := by
  intro acc
  induction acc with
  | nil => intro _ _; simp [insertFromRight]
  | cons y ys ih =>
    intro hall hpw
    obtain ⟨hhead, htail⟩ := List.pairwise_cons.mp hpw
    have hy : statusFalsy y.status = false := hall y (by simp)
    rw [insertFromRight]
    by_cases h : listCompare y x > 0
    · rw [if_pos h]
      rw [listCompare_of_truthy y x hy hx] at h
      refine List.pairwise_cons.mpr ⟨?_, ih (fun z hz => hall z (by simp [hz])) htail⟩
      intro z hz
      rcases mem_insertFromRight.mp hz with rfl | hzys
      · omega
      · exact hhead z hzys
    · rw [if_neg h]
      rw [listCompare_of_truthy y x hy hx] at h
      refine List.pairwise_cons.mpr ⟨?_, hpw⟩
      intro z hz
      rcases List.mem_cons.mp hz with rfl | hzys
      · omega
      · have := hhead z hzys
        omega

theorem foldl_insert_revSorted :
    ∀ (ls accR : List MediaList),
      (∀ l ∈ ls, statusFalsy l.status = false) →
      (∀ l ∈ accR, statusFalsy l.status = false) →
      accR.Pairwise (fun a b => listPriority b ≤ listPriority a) →
      (ls.foldl (fun accR x => insertFromRight x accR) accR).Pairwise
        (fun a b => listPriority b ≤ listPriority a) := by
  intro ls
  induction ls with
  | nil => intro accR _ _ hpw; simpa using hpw
  | cons l rest ih =>
    intro accR hls hacc hpw
    rw [List.foldl_cons]
    refine ih (insertFromRight l accR) (fun z hz => hls z (by simp [hz])) ?_ ?_
    · intro z hz
      rcases mem_insertFromRight.mp hz with rfl | hzacc
      · exact hls z (by simp)
      · exact hacc z hzacc
    · exact insertFromRight_revSorted l (hls l (by simp)) accR hacc hpw

theorem sortLists_sorted (ls : List MediaList)
    (hall : ∀ l ∈ ls, statusFalsy l.status = false) :
    (sortLists ls).Pairwise (fun a b => listPriority a ≤ listPriority b) := by
  unfold sortLists sortListsRev
  rw [List.pairwise_reverse]
  exact foldl_insert_revSorted ls [] hall (by simp) (by simp)

/-- First candidate in sorted order wins, and sorted order realises the
priority minimum: every produced item's status comes from a candidate list
of minimal priority among the candidates for its anime id. -/
theorem processLists_first_wins :
    ∀ (ss : List MediaList) (seen : List Nat),
      ss.Pairwise (fun a b => listPriority a ≤ listPriority b) →
      ∀ it ∈ (processLists ss seen).1,
        ∃ l₀ ∈ ss, isCandidateFor l₀ it.anime.id = true ∧
          mapApiStatusToWatchStatus l₀.status = some it.status ∧
          ∀ l ∈ ss, isCandidateFor l it.anime.id = true →
            listPriority l₀ ≤ listPriority l := by
  intro ss
  induction ss with
  | nil => intro seen _ it hmem; simp [processLists] at hmem
  | cons l rest ih =>
    intro seen hpw it hmem
    obtain ⟨hhead, htail⟩ := List.pairwise_cons.mp hpw
    by_cases hskip : (l.isCustomList || statusFalsy l.status) = true
    · rw [processLists, if_pos hskip] at hmem
      obtain ⟨l₀, hl₀, hcand, hmap, hmin⟩ := ih seen htail it hmem
      refine ⟨l₀, List.mem_cons_of_mem l hl₀, hcand, hmap, ?_⟩
      intro l' hl' hc
      rcases List.mem_cons.mp hl' with rfl | hl'r
      · exfalso
        obtain ⟨h1, h2, -, -⟩ := (isCandidateFor_iff l' it.anime.id).mp hc
        rcases Bool.or_eq_true_iff.mp hskip with hcu | hfa
        · rw [h1] at hcu; exact Bool.false_ne_true hcu
        · rw [h2] at hfa; exact Bool.false_ne_true hfa
      · exact hmin l' hl'r hc
    · match hmapl : mapApiStatusToWatchStatus l.status with
      | none =>
        rw [processLists, if_neg hskip, hmapl] at hmem
        obtain ⟨l₀, hl₀, hcand, hmap, hmin⟩ := ih seen htail it hmem
        refine ⟨l₀, List.mem_cons_of_mem l hl₀, hcand, hmap, ?_⟩
        intro l' hl' hc
        rcases List.mem_cons.mp hl' with rfl | hl'r
        · exfalso
          obtain ⟨-, -, h3, -⟩ := (isCandidateFor_iff l' it.anime.id).mp hc
          rw [hmapl] at h3
          simp at h3
        · exact hmin l' hl'r hc
      | some st =>
        rw [processLists, if_neg hskip, hmapl] at hmem
        rw [List.mem_append] at hmem
        have hskip' : l.isCustomList = false ∧ statusFalsy l.status = false := by
          simpa using hskip
        rcases hmem with hhere | hrest
        · obtain ⟨hnotseen, hseen', hst, e, he, hme⟩ :=
            processEntries_items st l.entries seen it hhere
          refine ⟨l, List.mem_cons_self l rest, ?_, by rw [hmapl, hst], ?_⟩
          · exact (isCandidateFor_iff l it.anime.id).mpr
              ⟨hskip'.1, hskip'.2, by rw [hmapl]; rfl, e, he, it.anime, hme, rfl⟩
          · intro l' hl' _
            rcases List.mem_cons.mp hl' with rfl | hl'r
            · exact le_refl _
            · exact hhead l' hl'r
        · obtain ⟨l₀, hl₀, hcand, hmap, hmin⟩ :=
            ih (processEntries st l.entries seen).2 htail it hrest
          refine ⟨l₀, List.mem_cons_of_mem l hl₀, hcand, hmap, ?_⟩
          intro l' hl' hc
          rcases List.mem_cons.mp hl' with rfl | hl'r
          · exfalso
            obtain ⟨-, -, -, e, he, m, hme, hmi⟩ :=
              (isCandidateFor_iff l' it.anime.id).mp hc
            have hin : m.id ∈ (processEntries st l'.entries seen).2 :=
              processEntries_media_seen st l'.entries seen e m he hme
            rw [hmi] at hin
            exact (processLists_items rest _ it hrest).1 hin
          · exact hmin l' hl'r hc

/-- C1 (amended): for a collection in which every list carries a (truthy)
status — so the sort comparator of `getWatchlist` is consistent — every
returned entry takes its status from a candidate list of maximal priority
(minimal `statusPriority` rank: CURRENT 1, REPEATING 2, PAUSED 3,
PLANNING 4, COMPLETED 5, DROPPED 6) among the lists in which its anime id
appears. -/
theorem getWatchlist_prefers_priority (lists : List MediaList)
    (hall : ∀ l ∈ lists, statusFalsy l.status = false)
    (item : WatchlistItem) (hmem : item ∈ getWatchlist lists) :
    ∃ l₀ ∈ lists, isCandidateFor l₀ item.anime.id = true ∧
      mapApiStatusToWatchStatus l₀.status = some item.status ∧
      ∀ l ∈ lists, isCandidateFor l item.anime.id = true →
        listPriority l₀ ≤ listPriority l := by
  have hsorted := sortLists_sorted lists hall
  obtain ⟨l₀, hl₀, h1, h2, h3⟩ :=
    processLists_first_wins (sortLists lists) [] hsorted item hmem
  exact ⟨l₀, mem_sortLists.mp hl₀, h1, h2,
    fun l hl hc => h3 l (mem_sortLists.mpr hl) hc⟩

/-- Closed witness for the priority theorem: anime 1 on both a CURRENT and
a COMPLETED list (all lists carry statuses); the returned entry is the
CURRENT one. -/
theorem getWatchlist_prefers_priority_witness :
    (∀ l ∈ [(⟨false, some "COMPLETED", [⟨10, some ⟨1, some 12⟩, 12⟩]⟩ : MediaList),
            ⟨false, some "CURRENT", [⟨11, some ⟨1, some 12⟩, 5⟩]⟩],
        statusFalsy l.status = false)
    ∧ (⟨some 11, ⟨1, some 12⟩, .Watching, 5⟩ : WatchlistItem) ∈
        getWatchlist [⟨false, some "COMPLETED", [⟨10, some ⟨1, some 12⟩, 12⟩]⟩,
                      ⟨false, some "CURRENT", [⟨11, some ⟨1, some 12⟩, 5⟩]⟩]
    ∧ ∃ l₀ ∈ [(⟨false, some "COMPLETED", [⟨10, some ⟨1, some 12⟩, 12⟩]⟩ : MediaList),
              ⟨false, some "CURRENT", [⟨11, some ⟨1, some 12⟩, 5⟩]⟩],
        isCandidateFor l₀ (⟨some 11, ⟨1, some 12⟩, .Watching, 5⟩ : WatchlistItem).anime.id = true ∧
        mapApiStatusToWatchStatus l₀.status
          = some (⟨some 11, ⟨1, some 12⟩, .Watching, 5⟩ : WatchlistItem).status ∧
        ∀ l ∈ [(⟨false, some "COMPLETED", [⟨10, some ⟨1, some 12⟩, 12⟩]⟩ : MediaList),
               ⟨false, some "CURRENT", [⟨11, some ⟨1, some 12⟩, 5⟩]⟩],
          isCandidateFor l (⟨some 11, ⟨1, some 12⟩, .Watching, 5⟩ : WatchlistItem).anime.id = true →
          listPriority l₀ ≤ listPriority l :=
  ⟨by decide, by decide, getWatchlist_prefers_priority _ (by decide) _ (by decide)⟩

/-- C1 counterexample: with a status-less custom list sitting between a
COMPLETED and a CURRENT list, the comparator (which answers 0 whenever a
status is missing) is inconsistent and the stable sort leaves COMPLETED
before CURRENT; anime 1 appears on both status lists, yet `getWatchlist`
returns its COMPLETED entry instead of the higher-priority CURRENT one. -/
theorem getWatchlist_priority_counterexample :
    isCandidateFor ⟨false, some "CURRENT", [⟨11, some ⟨1, some 12⟩, 5⟩]⟩ 1 = true
    ∧ isCandidateFor ⟨false, some "COMPLETED", [⟨10, some ⟨1, some 12⟩, 12⟩]⟩ 1 = true
    ∧ listPriority ⟨false, some "CURRENT", [⟨11, some ⟨1, some 12⟩, 5⟩]⟩
        < listPriority ⟨false, some "COMPLETED", [⟨10, some ⟨1, some 12⟩, 12⟩]⟩
    ∧ getWatchlist
        [⟨false, some "COMPLETED", [⟨10, some ⟨1, some 12⟩, 12⟩]⟩,
         ⟨true, none, []⟩,
         ⟨false, some "CURRENT", [⟨11, some ⟨1, some 12⟩, 5⟩]⟩]
      = [⟨some 10, ⟨1, some 12⟩, .Completed, 12⟩]
    ∧ ¬ (∀ it ∈ getWatchlist
          [⟨false, some "COMPLETED", [⟨10, some ⟨1, some 12⟩, 12⟩]⟩,
           ⟨true, none, []⟩,
           ⟨false, some "CURRENT", [⟨11, some ⟨1, some 12⟩, 5⟩]⟩],
          it.anime.id = 1 → it.status = WatchStatus.Watching) := by
  refine ⟨by decide, by decide, by decide, by decide, fun h => ?_⟩
  exact absurd (h ⟨some 10, ⟨1, some 12⟩, .Completed, 12⟩ (by decide) (by decide)) (by decide)

end AnimeTracker
